import Mathlib

/-
Verification of the event ingestion and deduplication pipeline of the
bcn-techno-bot repository, shallowly embedded from `src/scraper.py`
(functions `fetch_events_from_api`, `transform_and_save_events`, and the
`__main__` block) and `src/database.py` (the `events` table schema of
`setup_database` and `mark_event_as_notified`).

Modelling conventions:
- A raw upstream JSON item is modelled with `Option` fields where the
  Python code uses `dict.get` with a default: `none` models an *absent*
  key (the only shape the claims exercise; a key present with JSON
  `null` is not modelled).
- The SQLite `events` table is a list of rows plus an AUTOINCREMENT
  counter; the `UNIQUE NOT NULL` column `source_link` and the
  `NOT NULL` column `event_name` are enforced exactly where SQLite
  enforces them (at INSERT/UPDATE execution, which the Python code
  catches in its per-item `except` block).
- `cursor.rowcount` after an UPDATE is the number of rows *matched* by
  the WHERE clause (SQLite counts a row as changed even when the new
  values equal the old ones); after a successful INSERT it is 1.
- Python's `datetime.fromisoformat`/`strftime` are modelled by an
  executable ISO-8601 parser over the common `YYYY-MM-DD[THH:MM[:SS
  [.ffffff]]][±HH:MM]` forms; `s.replace('Z', '+00:00')` is modelled
  character-exactly by `replaceZ`.
-/

namespace BcnTechno

/-! ## Raw upstream payload model (the JSON shapes `scraper.py` reads) -/

/-- One entry of the raw `artists` array; `name` is read with `artist.get('name')`. -/
structure RawArtist where
  name : Option String
deriving Repr, DecidableEq

/-- The raw `venue` object; `name` is read with `.get('name', 'TBA')`. -/
structure RawVenue where
  name : Option String
deriving Repr, DecidableEq

/-- One entry of the raw `images` array; `filename` is read with `.get('filename', '')`. -/
structure RawImage where
  filename : Option String
deriving Repr, DecidableEq

/-- The raw `event` object inside one listing item (`scraper.py` lines 71-90, 99-110).
`date`, `startTime`, `endTime` are accessed with `event[...]`, so an absent key
(`none`) raises and lands in the per-item error path. -/
structure RawEvent where
  title : Option String
  date : Option String
  startTime : Option String
  endTime : Option String
  artists : List RawArtist
  venue : Option RawVenue
  images : List RawImage
  contentUrl : Option String
  attending : Option Nat
deriving Repr, DecidableEq

/-- One raw listing item: `item.get('event', \x7b\x7d)`; `none` models a missing or
falsy `event`, which the loop skips without counting it as processed. -/
structure RawItem where
  event : Option RawEvent
deriving Repr, DecidableEq

/-! ## ISO-8601 timestamp handling (`datetime.fromisoformat` + `strftime`) -/

/-- Value of a decimal digit character, `none` on a non-digit. -/
def digitVal (c : Char) : Option Nat :=
  if '0' ≤ c ∧ c ≤ '9' then some (c.toNat - '0'.toNat) else none

/-- Value of a two-digit decimal group. -/
def pair2 (a b : Char) : Option Nat := do
  let x ← digitVal a
  let y ← digitVal b
  pure (10 * x + y)

/-- Number of days in a month of the proleptic Gregorian calendar. -/
def daysInMonth (y m : Nat) : Nat :=
  if m = 2 then (if (y % 4 = 0 ∧ y % 100 ≠ 0) ∨ y % 400 = 0 then 29 else 28)
  else if m = 4 ∨ m = 6 ∨ m = 9 ∨ m = 11 then 30 else 31

/-- Length of the leading run of digit characters, and the remaining characters. -/
def takeDigits : List Char → Nat × List Char
  | [] => (0, [])
  | c :: cs =>
    if (digitVal c).isSome then
      let p := takeDigits cs
      (p.1 + 1, p.2)
    else (0, c :: cs)

/-- Accepts a (possibly empty) UTC-offset tail `±HH:MM` of an ISO string. -/
def isOffsetOk : List Char → Bool
  | [] => true
  | [s, h1, h2, ':', m1, m2] =>
    (s == '+' || s == '-')
      && (match pair2 h1 h2, pair2 m1 m2 with
          | some hh, some mm => decide (hh ≤ 23) && decide (mm ≤ 59)
          | _, _ => false)
  | _ => false

/-- Accepts what may follow the seconds group: nothing, a fractional part of one
to six digits (then an optional offset), or an offset. -/
def afterSeconds : List Char → Bool
  | [] => true
  | '.' :: cs =>
    let p := takeDigits cs
    decide (1 ≤ p.1 ∧ p.1 ≤ 6) && isOffsetOk p.2
  | cs => isOffsetOk cs

/-- Parses the time part `HH:MM[:SS[.ffffff]][±HH:MM]` of an ISO string and
returns the `HH:MM` text, exactly what `strftime('%H:%M')` later renders. -/
def parseTimeChars : List Char → Option String
  | h1 :: h2 :: ':' :: m1 :: m2 :: rest =>
    match pair2 h1 h2, pair2 m1 m2 with
    | some hh, some mm =>
      if hh ≤ 23 ∧ mm ≤ 59 then
        match rest with
        | [] => some (String.mk [h1, h2, ':', m1, m2])
        | ':' :: s1 :: s2 :: rest2 =>
          match pair2 s1 s2 with
          | some ss =>
            if ss ≤ 59 ∧ afterSeconds rest2 then some (String.mk [h1, h2, ':', m1, m2])
            else none
          | none => none
        | cs => if isOffsetOk cs then some (String.mk [h1, h2, ':', m1, m2]) else none
      else none
    | _, _ => none
  | _ => none

/-- Parses a full ISO-8601 string `YYYY-MM-DD[<sep>time]` and returns the pair
(`strftime('%Y-%m-%d')` text, `strftime('%H:%M')` text). -/
def parseIsoChars : List Char → Option (String × String)
  | y1 :: y2 :: y3 :: y4 :: '-' :: mo1 :: mo2 :: '-' :: d1 :: d2 :: rest =>
    match pair2 y1 y2, pair2 y3 y4, pair2 mo1 mo2, pair2 d1 d2 with
    | some yh, some yl, some mo, some dd =>
      let yr := 100 * yh + yl
      if 1 ≤ yr ∧ 1 ≤ mo ∧ mo ≤ 12 ∧ 1 ≤ dd ∧ dd ≤ daysInMonth yr mo then
        let dateStr := String.mk [y1, y2, y3, y4, '-', mo1, mo2, '-', d1, d2]
        match rest with
        | [] => some (dateStr, "00:00")
        | sep :: timeCs =>
          if sep = 'T' ∨ sep = ' ' then
            match parseTimeChars timeCs with
            | some hm => some (dateStr, hm)
            | none => none
          else none
      else none
    | _, _, _, _ => none
  | _ => none

/-- Character-exact model of Python `s.replace('Z', '+00:00')`. -/
def replaceZ : List Char → List Char
  | [] => []
  | c :: cs =>
    if c = 'Z' then '+' :: '0' :: '0' :: ':' :: '0' :: '0' :: replaceZ cs
    else c :: replaceZ cs

/-- Models `datetime.fromisoformat(s.replace('Z', '+00:00'))` followed by
`strftime('%Y-%m-%d')` (first component) and `strftime('%H:%M')` (second
component), as used at `scraper.py` lines 77-79 and 102-104; `none` models
the `ValueError` of an unparseable string. -/
def parseIso (s : String) : Option (String × String) :=
  parseIsoChars (replaceZ s.data)

/-! ## Normalization (`scraper.py` lines 77-110) -/

/-- Artist names kept by the comprehension at line 81: entries whose
`artist.get('name')` is truthy (present and non-empty). -/
def artistNames (l : List RawArtist) : List String :=
  l.filterMap fun a =>
    match a.name with
    | some n => if n = "" then none else some n
    | none => none

/-- Python `", ".join(l)`: elements separated by a comma and a space. -/
def joinComma : List String → String
  | [] => ""
  | [a] => a
  | a :: b :: rest => a ++ ", " ++ joinComma (b :: rest)

/-- The `artists` field value: `", ".join(artists_list) or "Artistas por confirmar"`
(line 105); Python's `or` substitutes the sentinel exactly when the join is empty. -/
def artistsField (l : List RawArtist) : String :=
  let s := joinComma (artistNames l)
  if s = "" then "Artistas por confirmar" else s

/-- The `club_name` field value: `event.get('venue', \x7b\x7d).get('name', 'TBA')`
(line 101). The `'TBA'` default applies only when the key is absent; a present
but empty name is kept as is. -/
def clubNameField : Option RawVenue → String
  | none => "TBA"
  | some v => v.name.getD "TBA"

/-- The `flyer_image` field value (lines 83-88): first image's filename when
truthy, prefixed with the image host, else the empty string. -/
def flyerField : List RawImage → String
  | [] => ""
  | img :: _ =>
    match img.filename with
    | none => ""
    | some f => if f = "" then "" else "https://images.ra.co/" ++ f

/-- The `source_link` value: `"https://ra.co" + event.get('contentUrl', '')` (line 90). -/
def sourceLinkField (e : RawEvent) : String :=
  "https://ra.co" ++ e.contentUrl.getD ""

/-- The `update_data` dictionary built at lines 99-110: the normalized draft of
one event. `title` stays optional (`event.get('title')`); a `none` title
violates the `NOT NULL` constraint on `event_name` at write time. -/
structure Draft where
  title : Option String
  club_name : String
  event_date : String
  start_time : String
  end_time : String
  artists : String
  attending_count : Nat
  buy_link : String
  flyer_image : String
  source_link : String
deriving Repr, DecidableEq, Inhabited

/-- Normalization of one raw event (the `try` block up to the draft, lines
77-110): `none` models the exception path (missing `date`/`startTime`/`endTime`
key, or an unparseable timestamp). -/
def normalizeEvent (e : RawEvent) : Option Draft :=
  match e.date with
  | none => none
  | some ds =>
    match e.startTime with
    | none => none
    | some ss =>
      match e.endTime with
      | none => none
      | some es =>
        match parseIso ds, parseIso ss, parseIso es with
        | some dp, some sp, some ep =>
          some { title := e.title
                 club_name := clubNameField e.venue
                 event_date := dp.1
                 start_time := sp.2
                 end_time := ep.2
                 artists := artistsField e.artists
                 attending_count := e.attending.getD 0
                 buy_link := sourceLinkField e
                 flyer_image := flyerField e.images
                 source_link := sourceLinkField e }
        | _, _, _ => none

/-! ## Storage model (the `events` table of `database.py` lines 42-58) -/

/-- The nine columns the UPDATE statement at `scraper.py` lines 114-126 sets
(everything except `id`, `source_link`, `notified`, `date_added`). -/
structure MutCols where
  event_name : String
  club_name : String
  event_date : String
  start_time : String
  end_time : String
  artists : String
  attending_count : Nat
  buy_link : String
  flyer_image : String
deriving Repr, DecidableEq

/-- One row of the `events` table. -/
structure EventRow where
  id : Nat
  source_link : String
  mutCols : MutCols
  notified : Bool
  date_added : Nat
deriving Repr, DecidableEq

/-- The `events` table: rows in insertion order plus the AUTOINCREMENT counter. -/
structure DB where
  rows : List EventRow
  nextId : Nat
deriving Repr, DecidableEq

/-- The mutable-column values a draft writes, given its (non-null) title. -/
def Draft.mutWith (d : Draft) (t : String) : MutCols :=
  { event_name := t
    club_name := d.club_name
    event_date := d.event_date
    start_time := d.start_time
    end_time := d.end_time
    artists := d.artists
    attending_count := d.attending_count
    buy_link := d.buy_link
    flyer_image := d.flyer_image }

/-- The `source_link` column of every row, in order. -/
def links (db : DB) : List String :=
  db.rows.map fun r => r.source_link

/-- The existence check `SELECT id FROM events WHERE source_link = ?`
(lines 95-96), as a Boolean. -/
def linkPresent (db : DB) (l : String) : Bool :=
  db.rows.any fun r => r.source_link == l

/-- Number of rows matching a `WHERE source_link = ?` clause: the value of
`cursor.rowcount` after the UPDATE at line 127. -/
def linkCount (db : DB) (l : String) : Nat :=
  (db.rows.filter fun r => r.source_link == l).length

/-- Effect of the UPDATE statement (lines 114-127) on the row list: every row
matching the `source_link` gets all nine mutable columns overwritten. -/
def updateRows (rows : List EventRow) (l : String) (m : MutCols) : List EventRow :=
  rows.map fun r => if r.source_link = l then { r with mutCols := m } else r

/-- Effect of the INSERT statement (lines 132-140): a fresh row with the next
AUTOINCREMENT id, `notified` defaulting to 0 and `date_added` defaulting to
the current timestamp (schema lines 55-56 of `database.py`). -/
def insertRow (db : DB) (now : Nat) (l : String) (m : MutCols) : DB :=
  { rows := db.rows ++ [{ id := db.nextId, source_link := l, mutCols := m,
                          notified := false, date_added := now }]
    nextId := db.nextId + 1 }

/-! ## Reconciliation loop (`transform_and_save_events`, lines 59-157) -/

/-- State effect of one iteration of the `for item in events` loop. Items
without an `event`, items whose normalization raises, and items whose write
violates `NOT NULL event_name` leave the table unchanged (the statement fails
atomically and the generic `except` continues the loop). -/
def stepDB (now : Nat) (db : DB) (item : RawItem) : DB :=
  match item.event with
  | none => db
  | some e =>
    match normalizeEvent e with
    | none => db
    | some d =>
      match d.title with
      | none => db
      | some t =>
        if linkPresent db d.source_link then
          { rows := updateRows db.rows d.source_link (d.mutWith t), nextId := db.nextId }
        else insertRow db now d.source_link (d.mutWith t)

/-- State effect of the whole loop. -/
def runDB (now : Nat) (db : DB) (items : List RawItem) : DB :=
  items.foldl (stepDB now) db

/-- Per-item outcome, mirroring the counter updates of the loop body. -/
inductive Outcome where
  | noEvent
  | errorSkip
  | inserted
  | updated
  | noCount
deriving Repr, DecidableEq

/-- Which outcome one iteration produces against the current table.
In the update branch the `if cursor.rowcount > 0` test (line 128) is modelled
by `0 < linkCount`; a successful INSERT always has `rowcount = 1`. -/
def itemOutcome (db : DB) (item : RawItem) : Outcome :=
  match item.event with
  | none => .noEvent
  | some e =>
    match normalizeEvent e with
    | none => .errorSkip
    | some d =>
      match d.title with
      | none => .errorSkip
      | some _ =>
        if linkPresent db d.source_link then
          (if 0 < linkCount db d.source_link then .updated else .noCount)
        else .inserted

/-- The three counters of the loop plus the number of `except`-branch skips
(the latter is only printed, never returned, by the Python code). -/
structure Counts where
  processed : Nat
  inserted : Nat
  updated : Nat
  skipped : Nat
deriving Repr, DecidableEq

/-- Counter updates for one outcome: `processed_count` is incremented for every
item with an `event` (line 75, before the `try`), the other counters in their
respective branches. -/
def Counts.add (c : Counts) (o : Outcome) : Counts :=
  match o with
  | .noEvent => c
  | .errorSkip => { c with processed := c.processed + 1, skipped := c.skipped + 1 }
  | .inserted => { c with processed := c.processed + 1, inserted := c.inserted + 1 }
  | .updated => { c with processed := c.processed + 1, updated := c.updated + 1 }
  | .noCount => { c with processed := c.processed + 1 }

/-- The zero counter state at function entry (lines 66-68). -/
def Counts.zero : Counts := { processed := 0, inserted := 0, updated := 0, skipped := 0 }

/-- `transform_and_save_events` (lines 59-157): final table state and counters. -/
def transformAndSaveEvents (now : Nat) (db : DB) (items : List RawItem) : DB × Counts :=
  items.foldl (fun s item => (stepDB now s.1 item, s.2.add (itemOutcome s.1 item))) (db, Counts.zero)

/-- The value `transform_and_save_events` returns (line 157): only
`new_events_count`. -/
def transformReturn (now : Nat) (db : DB) (items : List RawItem) : Nat :=
  (transformAndSaveEvents now db items).2.inserted

/-- Title logged for an item that lands in the `except` branch (line 147),
`none` when the item does not error. The error path is independent of the
table state: only parse failures and the `NOT NULL event_name` violation
reach it. -/
def itemErrTitle (item : RawItem) : Option (Option String) :=
  match item.event with
  | none => none
  | some e =>
    match normalizeEvent e with
    | none => some e.title
    | some d =>
      match d.title with
      | none => some e.title
      | some _ => none

/-- The sequence of warning logs (offending items' titles) a batch produces. -/
def errorLog (items : List RawItem) : List (Option String) :=
  items.filterMap itemErrTitle

/-- Items carrying an `event` object (those counted as processed). -/
def hasEvent (item : RawItem) : Bool :=
  item.event.isSome

/-- Items that land in the `except` branch. -/
def itemErr (item : RawItem) : Bool :=
  (itemErrTitle item).isSome

/-- Items that reach a write that succeeds (an INSERT or an UPDATE). -/
def itemOk (item : RawItem) : Bool :=
  hasEvent item && !itemErr item

/-- The `source_link` of a successfully written item, `none` otherwise. -/
def okLink (item : RawItem) : Option String :=
  match item.event with
  | none => none
  | some e =>
    match normalizeEvent e with
    | none => none
    | some d =>
      match d.title with
      | none => none
      | some _ => some d.source_link

/-! ## Upstream fetch (`fetch_events_from_api`, lines 18-57) -/

/-- Upstream behaviour on one page request: a transport-layer failure
(exception from `requests.post`, timeout, or `raise_for_status`), an
`errors` field in a 200 response body, or a page of items. -/
inductive PageResult where
  | transportError
  | apiError
  | page (items : List RawItem)
deriving Repr, DecidableEq

/-- The `while True` pagination loop: accumulate pages, stop at the first
transport error, API error payload, or empty page (lines 30-55). The finite
response list models the upstream; an exhausted list means end-of-data. -/
def fetchLoop : List PageResult → List RawItem → List RawItem
  | [], acc => acc
  | .transportError :: _, acc => acc
  | .apiError :: _, acc => acc
  | .page [] :: _, acc => acc
  | .page (x :: xs) :: rest, acc => fetchLoop rest (acc ++ (x :: xs))

/-- `fetch_events_from_api`: all items accumulated before the loop stopped,
returned normally (the loop never re-raises to its caller). -/
def fetchEventsFromApi (pages : List PageResult) : List RawItem :=
  fetchLoop pages []

/-- The `__main__` block (lines 160-170): fetch, and only when the item list
is non-empty run `transform_and_save_events` (whose return value the block
drops; we keep it as the second component to talk about observability). -/
def mainRun (now : Nat) (db : DB) (pages : List PageResult) : DB × Option Nat :=
  let api := fetchEventsFromApi pages
  if api.isEmpty then (db, none)
  else
    let r := transformAndSaveEvents now db api
    (r.1, some r.2.inserted)

/-! ## `mark_event_as_notified` (`database.py` lines 199-209) -/

/-- `UPDATE events SET notified = 1 WHERE id = ?`. -/
def markEventAsNotified (db : DB) (eid : Nat) : DB :=
  { db with rows := db.rows.map fun r => if r.id = eid then { r with notified := true } else r }

/-! ## Concrete values used to instantiate the theorems -/

/-- A freshly set-up `events` table (AUTOINCREMENT ids start at 1). -/
def emptyDB : DB := { rows := [], nextId := 1 }

/-- The raw event of the spec's scenario in section 8. -/
def exampleEvent : RawEvent :=
  { title := some "X"
    date := some "2025-10-01T22:00:00Z"
    startTime := some "2025-10-01T22:00:00Z"
    endTime := some "2025-10-02T06:00:00Z"
    artists := []
    venue := some { name := some "Y" }
    images := []
    contentUrl := some "/events/1"
    attending := none }

/-- The spec's scenario item, wrapped as one listing item. -/
def exampleItem : RawItem := { event := some exampleEvent }

/-- An otherwise well-formed item whose `date` field is unparseable. -/
def badDateItem : RawItem := { event := some { exampleEvent with date := some "banana" } }

/-- A well-formed second item with a distinct `contentUrl`. -/
def otherItem : RawItem := { event := some { exampleEvent with contentUrl := some "/events/2" } }

/-- A raw event whose `date` field and `startTime` field fall on different
calendar days. -/
def mismatchEvent : RawEvent :=
  { exampleEvent with startTime := some "2025-10-02T01:00:00Z" }

/-- A raw event whose venue object carries an explicitly empty name. -/
def emptyVenueNameEvent : RawEvent :=
  { exampleEvent with venue := some { name := some "" } }

/-! ## Relations for the idempotence argument -/

/-- Two rows that agree on everything except possibly the mutable columns of a
row whose `source_link` is `l`. -/
def RowRel (l : String) (r r' : EventRow) : Prop :=
  r'.id = r.id ∧ r'.source_link = r.source_link ∧ r'.notified = r.notified ∧
    r'.date_added = r.date_added ∧ (r.source_link ≠ l → r' = r)

/-- Two table states that agree on everything except possibly the mutable
columns of rows whose `source_link` is `l`. -/
def DBRel (l : String) (db db' : DB) : Prop :=
  db'.nextId = db.nextId ∧ List.Forall₂ (RowRel l) db.rows db'.rows

/-! ## Unfolding lemmas for the loop body -/

theorem stepDB_of_no_event (now : Nat) (db : DB) (i : RawItem) (h : i.event = none) :
    stepDB now db i = db := by
  simp only [stepDB, h]

theorem stepDB_of_parse_fail (now : Nat) (db : DB) (i : RawItem) (e : RawEvent)
    (h1 : i.event = some e) (h2 : normalizeEvent e = none) :
    stepDB now db i = db := by
  simp only [stepDB, h1, h2]

theorem stepDB_of_no_title (now : Nat) (db : DB) (i : RawItem) (e : RawEvent) (d : Draft)
    (h1 : i.event = some e) (h2 : normalizeEvent e = some d) (h3 : d.title = none) :
    stepDB now db i = db := by
  simp only [stepDB, h1, h2, h3]

theorem stepDB_ok (now : Nat) (db : DB) (i : RawItem) (e : RawEvent) (d : Draft) (t : String)
    (h1 : i.event = some e) (h2 : normalizeEvent e = some d) (h3 : d.title = some t) :
    stepDB now db i =
      if linkPresent db d.source_link then
        { rows := updateRows db.rows d.source_link (d.mutWith t), nextId := db.nextId }
      else insertRow db now d.source_link (d.mutWith t) := by
  simp only [stepDB, h1, h2, h3]

theorem okLink_of_ok (i : RawItem) (e : RawEvent) (d : Draft) (t : String)
    (h1 : i.event = some e) (h2 : normalizeEvent e = some d) (h3 : d.title = some t) :
    okLink i = some d.source_link := by
  simp only [okLink, h1, h2, h3]

theorem okLink_spec (i : RawItem) (l : String) (h : okLink i = some l) :
    ∃ e d t, i.event = some e ∧ normalizeEvent e = some d ∧ d.title = some t ∧
      d.source_link = l := by
  rcases hie : i.event with _ | e
  · simp only [okLink, hie] at h
    exact Option.noConfusion h
  · rcases hne : normalizeEvent e with _ | d
    · simp only [okLink, hie, hne] at h
      exact Option.noConfusion h
    · rcases hti : d.title with _ | t
      · simp only [okLink, hie, hne, hti] at h
        exact Option.noConfusion h
      · simp only [okLink, hie, hne, hti, Option.some.injEq] at h
        exact ⟨e, d, t, rfl, hne, hti, h⟩

theorem stepDB_of_okLink_none (now : Nat) (db : DB) (i : RawItem) (h : okLink i = none) :
    stepDB now db i = db := by
  cases hie : i.event with
  | none => exact stepDB_of_no_event now db i hie
  | some e =>
    cases hne : normalizeEvent e with
    | none => exact stepDB_of_parse_fail now db i e hie hne
    | some d =>
      cases hti : d.title with
      | none => exact stepDB_of_no_title now db i e d hie hne hti
      | some t =>
        simp only [okLink, hie, hne, hti] at h
        exact Option.noConfusion h

/-! ## Links, membership and presence -/

theorem link_of_update (l : String) (m : MutCols) (r : EventRow) :
    ((if r.source_link = l then { r with mutCols := m } else r) : EventRow).source_link
      = r.source_link := by
  split <;> rfl

theorem updateRows_map_link (rows : List EventRow) (l : String) (m : MutCols) :
    (updateRows rows l m).map (fun r => r.source_link) = rows.map (fun r => r.source_link) := by
  induction rows with
  | nil => rfl
  | cons r rest ih =>
    simp only [updateRows, List.map_cons] at ih ⊢
    rw [link_of_update, ih]

theorem links_stepDB_update (db : DB) (l : String) (m : MutCols) :
    links { rows := updateRows db.rows l m, nextId := db.nextId } = links db := by
  simp only [links]
  exact updateRows_map_link db.rows l m

theorem any_link_updateRows (rows : List EventRow) (l : String) (m : MutCols) (l' : String) :
    ((updateRows rows l m).any fun r => r.source_link == l')
      = rows.any fun r => r.source_link == l' := by
  induction rows with
  | nil => rfl
  | cons r rest ih =>
    simp only [updateRows, List.map_cons, List.any_cons] at ih ⊢
    rw [link_of_update, ih]

theorem linkPresent_update (db : DB) (l : String) (m : MutCols) (l' : String) :
    linkPresent { rows := updateRows db.rows l m, nextId := db.nextId } l' = linkPresent db l' := by
  simp only [linkPresent]
  exact any_link_updateRows db.rows l m l'

theorem linkPresent_iff (db : DB) (l : String) :
    linkPresent db l = true ↔ ∃ r ∈ db.rows, r.source_link = l := by
  simp only [linkPresent, List.any_eq_true, beq_iff_eq]

theorem not_linkPresent_iff (db : DB) (l : String) :
    linkPresent db l = false ↔ ∀ r ∈ db.rows, r.source_link ≠ l := by
  constructor
  · intro h r hr
    intro hl
    have : linkPresent db l = true := (linkPresent_iff db l).mpr ⟨r, hr, hl⟩
    rw [h] at this
    exact Bool.noConfusion this
  · intro h
    cases hb : linkPresent db l with
    | false => rfl
    | true =>
      obtain ⟨r, hr, hl⟩ := (linkPresent_iff db l).mp hb
      exact absurd hl (h r hr)

theorem linkPresent_pos_count (db : DB) (l : String) (h : linkPresent db l = true) :
    0 < linkCount db l := by
  obtain ⟨r, hr, hl⟩ := (linkPresent_iff db l).mp h
  have : r ∈ db.rows.filter fun r => r.source_link == l := by
    rw [List.mem_filter]
    exact ⟨hr, by simp [hl]⟩
  exact List.length_pos.mpr (List.ne_nil_of_mem this)

theorem linkPresent_step (now : Nat) (db : DB) (i : RawItem) (l : String)
    (h : linkPresent db l = true) : linkPresent (stepDB now db i) l = true := by
  cases hok : okLink i with
  | none => rw [stepDB_of_okLink_none now db i hok]; exact h
  | some l' =>
    obtain ⟨e, d, t, h1, h2, h3, h4⟩ := okLink_spec i l' hok
    rw [stepDB_ok now db i e d t h1 h2 h3]
    split
    · rw [linkPresent_update]
      exact h
    · obtain ⟨r, hr, hl⟩ := (linkPresent_iff db l).mp h
      refine (linkPresent_iff _ l).mpr ⟨r, ?_, hl⟩
      simp only [insertRow, List.mem_append]
      exact Or.inl hr

theorem linkPresent_run (now : Nat) (items : List RawItem) (db : DB) (l : String)
    (h : linkPresent db l = true) : linkPresent (runDB now db items) l = true := by
  induction items generalizing db with
  | nil => exact h
  | cons i rest ih =>
    simp only [runDB, List.foldl_cons]
    exact ih (stepDB now db i) (linkPresent_step now db i l h)

theorem linkPresent_step_self (now : Nat) (db : DB) (i : RawItem) (l : String)
    (h : okLink i = some l) : linkPresent (stepDB now db i) l = true := by
  obtain ⟨e, d, t, h1, h2, h3, h4⟩ := okLink_spec i l h
  rw [stepDB_ok now db i e d t h1 h2 h3]
  subst h4
  split
  · next hp =>
    rw [linkPresent_update]
    exact hp
  · refine (linkPresent_iff _ _).mpr ?_
    refine ⟨⟨db.nextId, d.source_link, d.mutWith t, false, now⟩, ?_, rfl⟩
    simp [insertRow]

theorem okLink_present_run (now : Nat) (l : String) :
    ∀ (items : List RawItem) (db : DB) (i : RawItem), i ∈ items → okLink i = some l →
      linkPresent (runDB now db items) l = true := by
  intro items
  induction items with
  | nil => intro db i hm; cases hm
  | cons j rest ih =>
    intro db i hm h
    simp only [runDB, List.foldl_cons]
    rcases List.mem_cons.mp hm with rfl | hmem
    · exact linkPresent_run now rest _ l (linkPresent_step_self now db i l h)
    · exact ih (stepDB now db j) i hmem h

/-! ## The state component of the loop with counters -/

theorem transform_foldl_fst (now : Nat) :
    ∀ (items : List RawItem) (db : DB) (c : Counts),
      (items.foldl (fun s item => (stepDB now s.1 item, s.2.add (itemOutcome s.1 item))) (db, c)).1
        = runDB now db items := by
  intro items
  induction items with
  | nil => intro db c; rfl
  | cons i rest ih =>
    intro db c
    simp only [List.foldl_cons, runDB] at ih ⊢
    exact ih (stepDB now db i) (c.add (itemOutcome db i))

theorem transform_fst (now : Nat) (db : DB) (items : List RawItem) :
    (transformAndSaveEvents now db items).1 = runDB now db items := by
  simp only [transformAndSaveEvents]
  exact transform_foldl_fst now items db Counts.zero

/-! ## Uniqueness of source links -/

theorem links_insert (db : DB) (now : Nat) (l : String) (m : MutCols) :
    links (insertRow db now l m) = links db ++ [l] := by
  simp [links, insertRow]

theorem nodup_links_step (now : Nat) (db : DB) (i : RawItem) (h : (links db).Nodup) :
    (links (stepDB now db i)).Nodup := by
  cases hok : okLink i with
  | none => rw [stepDB_of_okLink_none now db i hok]; exact h
  | some l =>
    obtain ⟨e, d, t, h1, h2, h3, h4⟩ := okLink_spec i l hok
    rw [stepDB_ok now db i e d t h1 h2 h3]
    split
    · rw [links_stepDB_update]
      exact h
    · next hp =>
      rw [links_insert]
      have hnp : linkPresent db d.source_link = false := by
        cases hb : linkPresent db d.source_link
        · rfl
        · exact absurd hb hp
      have hall := (not_linkPresent_iff db d.source_link).mp hnp
      rw [List.nodup_append]
      refine ⟨h, List.nodup_singleton _, ?_⟩
      intro x hx hx1
      obtain rfl := List.mem_singleton.mp hx1
      obtain ⟨r, hr, hl⟩ := List.mem_map.mp hx
      exact hall r hr hl

theorem nodup_links_run (now : Nat) :
    ∀ (items : List RawItem) (db : DB), (links db).Nodup →
      (links (runDB now db items)).Nodup := by
  intro items
  induction items with
  | nil => intro db h; exact h
  | cons i rest ih =>
    intro db h
    simp only [runDB, List.foldl_cons]
    exact ih (stepDB now db i) (nodup_links_step now db i h)

/-- C2: after every ingestion run from a table whose `source_link` values are
pairwise distinct, the `source_link` values are still pairwise distinct (no
two persisted rows share a `sourceLink`), and the invariant is preserved by
every single insert-or-update step the reconciliation loop performs. -/
theorem source_link_unique (now : Nat) (db : DB) (items : List RawItem) (i : RawItem)
    (h : (links db).Nodup) :
    (links (stepDB now db i)).Nodup ∧
      (links (transformAndSaveEvents now db items).1).Nodup ∧
      (links (transformAndSaveEvents now db items).1).Pairwise (· ≠ ·) := by
  have hrun : (links (transformAndSaveEvents now db items).1).Nodup := by
    rw [transform_fst]
    exact nodup_links_run now items db h
  exact ⟨nodup_links_step now db i h, hrun, hrun⟩

/-- C2 witness at a concrete input. -/
theorem source_link_unique_witness :
    (links emptyDB).Nodup ∧
      ((links (stepDB 5 emptyDB exampleItem)).Nodup ∧
        (links (transformAndSaveEvents 5 emptyDB [exampleItem, otherItem]).1).Nodup ∧
        (links (transformAndSaveEvents 5 emptyDB [exampleItem, otherItem]).1).Pairwise (· ≠ ·)) :=
  ⟨by decide, source_link_unique 5 emptyDB [exampleItem, otherItem] exampleItem (by decide)⟩

/-! ## Positional skeleton preservation -/

theorem updateRows_get? (rows : List EventRow) (l : String) (m : MutCols) (k : Nat)
    (r : EventRow) (h : rows.get? k = some r) :
    (updateRows rows l m).get? k
      = some (if r.source_link = l then { r with mutCols := m } else r) := by
  simp only [updateRows, List.get?_map, h, Option.map_some']

theorem stepDB_get? (now : Nat) (db : DB) (i : RawItem) (k : Nat) (r : EventRow)
    (h : db.rows.get? k = some r) :
    ∃ r', (stepDB now db i).rows.get? k = some r' ∧ r'.id = r.id ∧
      r'.source_link = r.source_link ∧ r'.notified = r.notified ∧
      r'.date_added = r.date_added := by
  cases hok : okLink i with
  | none =>
    rw [stepDB_of_okLink_none now db i hok]
    exact ⟨r, h, rfl, rfl, rfl, rfl⟩
  | some l =>
    obtain ⟨e, d, t, h1, h2, h3, h4⟩ := okLink_spec i l hok
    rw [stepDB_ok now db i e d t h1 h2 h3]
    split
    · refine ⟨_, updateRows_get? db.rows d.source_link (d.mutWith t) k r h, ?_, ?_, ?_, ?_⟩ <;>
        (split <;> rfl)
    · have hlt : k < db.rows.length := by
        rcases List.get?_eq_some.mp h with ⟨hlt, _⟩
        exact hlt
      refine ⟨r, ?_, rfl, rfl, rfl, rfl⟩
      simp only [insertRow]
      rw [List.get?_append hlt]
      exact h

theorem runDB_get? (now : Nat) :
    ∀ (items : List RawItem) (db : DB) (k : Nat) (r : EventRow), db.rows.get? k = some r →
      ∃ r', (runDB now db items).rows.get? k = some r' ∧ r'.id = r.id ∧
        r'.source_link = r.source_link ∧ r'.notified = r.notified ∧
        r'.date_added = r.date_added := by
  intro items
  induction items with
  | nil => intro db k r h; exact ⟨r, h, rfl, rfl, rfl, rfl⟩
  | cons i rest ih =>
    intro db k r h
    obtain ⟨r1, hg1, hid1, hsl1, hnf1, hda1⟩ := stepDB_get? now db i k r h
    obtain ⟨r2, hg2, hid2, hsl2, hnf2, hda2⟩ := ih (stepDB now db i) k r1 hg1
    refine ⟨r2, ?_, ?_, ?_, ?_, ?_⟩
    · simpa [runDB, List.foldl_cons] using hg2
    · rw [hid2, hid1]
    · rw [hsl2, hsl1]
    · rw [hnf2, hnf1]
    · rw [hda2, hda1]

theorem markEventAsNotified_get? (db : DB) (eid : Nat) (k : Nat) (r : EventRow)
    (h : db.rows.get? k = some r) (hn : r.notified = true) :
    ∃ r', (markEventAsNotified db eid).rows.get? k = some r' ∧ r'.notified = true := by
  have hg : (markEventAsNotified db eid).rows.get? k
      = some (if r.id = eid then { r with notified := true } else r) := by
    simp only [markEventAsNotified, List.get?_map, h, Option.map_some']
  refine ⟨_, hg, ?_⟩
  split
  · rfl
  · exact hn

/-- C3: reconciling a normalized event whose `sourceLink` already has a row
overwrites all nine mutable columns of that row with the draft's values and
leaves `id`, `source_link`, `notified` and `date_added` of every row exactly
as they were (rows with a different `sourceLink` are untouched entirely);
moreover `notified` never transitions true to false through any core
operation: neither through an ingestion run nor through
`mark_event_as_notified`. -/
theorem update_overwrites_and_frames (now : Nat) (db : DB) (i : RawItem) (e : RawEvent)
    (d : Draft) (t : String) (h1 : i.event = some e) (h2 : normalizeEvent e = some d)
    (h3 : d.title = some t) (h4 : linkPresent db d.source_link = true) :
    (stepDB now db i).nextId = db.nextId ∧
      (stepDB now db i).rows.length = db.rows.length ∧
      (∀ k r, db.rows.get? k = some r →
        ∃ r', (stepDB now db i).rows.get? k = some r' ∧ r'.id = r.id ∧
          r'.source_link = r.source_link ∧ r'.notified = r.notified ∧
          r'.date_added = r.date_added ∧
          (r.source_link = d.source_link → r'.mutCols = d.mutWith t) ∧
          (r.source_link ≠ d.source_link → r' = r)) ∧
      (∀ (db2 : DB) (eid k : Nat) (r2 : EventRow), db2.rows.get? k = some r2 →
        r2.notified = true →
        ∃ r2', (markEventAsNotified db2 eid).rows.get? k = some r2' ∧ r2'.notified = true) ∧
      (∀ (db3 : DB) (items : List RawItem) (k : Nat) (r3 : EventRow),
        db3.rows.get? k = some r3 → r3.notified = true →
        ∃ r3', ((transformAndSaveEvents now db3 items).1).rows.get? k = some r3' ∧
          r3'.notified = true) := by
  have hstep : stepDB now db i =
      { rows := updateRows db.rows d.source_link (d.mutWith t), nextId := db.nextId } := by
    rw [stepDB_ok now db i e d t h1 h2 h3, if_pos h4]
  refine ⟨by rw [hstep], ?_, ?_, ?_, ?_⟩
  · rw [hstep]
    simp [updateRows]
  · intro k r h
    rw [hstep]
    refine ⟨_, updateRows_get? db.rows d.source_link (d.mutWith t) k r h, ?_, ?_, ?_, ?_, ?_, ?_⟩
    · split <;> rfl
    · split <;> rfl
    · split <;> rfl
    · split <;> rfl
    · intro hl
      rw [if_pos hl]
    · intro hl
      rw [if_neg hl]
  · intro db2 eid k r2 hg hn
    exact markEventAsNotified_get? db2 eid k r2 hg hn
  · intro db3 items k r3 hg hn
    rw [transform_fst]
    obtain ⟨r', hg', _, _, hnf, _⟩ := runDB_get? now items db3 k r3 hg
    exact ⟨r', hg', by rw [hnf, hn]⟩

/-- C3 witness at a concrete input: the example row is already present, gets
its mutable columns overwritten, and keeps `notified`. -/
theorem update_overwrites_and_frames_witness :
    exampleItem.event = some exampleEvent ∧
      (normalizeEvent exampleEvent).isSome ∧
      linkPresent (transformAndSaveEvents 5 emptyDB [exampleItem]).1
        ((normalizeEvent exampleEvent).getD default).source_link = true ∧
      ((stepDB 7 (transformAndSaveEvents 5 emptyDB [exampleItem]).1 exampleItem).nextId
          = ((transformAndSaveEvents 5 emptyDB [exampleItem]).1).nextId ∧
        (stepDB 7 (transformAndSaveEvents 5 emptyDB [exampleItem]).1 exampleItem).rows.length
          = ((transformAndSaveEvents 5 emptyDB [exampleItem]).1).rows.length ∧
        (∀ k r, ((transformAndSaveEvents 5 emptyDB [exampleItem]).1).rows.get? k = some r →
          ∃ r', (stepDB 7 (transformAndSaveEvents 5 emptyDB [exampleItem]).1
              exampleItem).rows.get? k = some r' ∧ r'.id = r.id ∧
            r'.source_link = r.source_link ∧ r'.notified = r.notified ∧
            r'.date_added = r.date_added ∧
            (r.source_link = ((normalizeEvent exampleEvent).getD default).source_link →
              r'.mutCols = ((normalizeEvent exampleEvent).getD default).mutWith "X") ∧
            (r.source_link ≠ ((normalizeEvent exampleEvent).getD default).source_link →
              r' = r)) ∧
        (∀ (db2 : DB) (eid k : Nat) (r2 : EventRow), db2.rows.get? k = some r2 →
          r2.notified = true →
          ∃ r2', (markEventAsNotified db2 eid).rows.get? k = some r2' ∧
            r2'.notified = true) ∧
        (∀ (db3 : DB) (items : List RawItem) (k : Nat) (r3 : EventRow),
          db3.rows.get? k = some r3 → r3.notified = true →
          ∃ r3', ((transformAndSaveEvents 7 db3 items).1).rows.get? k = some r3' ∧
            r3'.notified = true)) :=
  ⟨rfl, by decide, by decide,
    update_overwrites_and_frames 7 (transformAndSaveEvents 5 emptyDB [exampleItem]).1
      exampleItem exampleEvent ((normalizeEvent exampleEvent).getD default) "X"
      rfl rfl rfl (by decide)⟩

/-! ## Counter bookkeeping -/

theorem outcome_add_cases (db : DB) (i : RawItem) :
    (hasEvent i = false ∧ itemErr i = false ∧ itemOk i = false ∧
      ∀ c : Counts, c.add (itemOutcome db i) = c) ∨
    (hasEvent i = true ∧ itemErr i = true ∧ itemOk i = false ∧
      ∀ c : Counts, c.add (itemOutcome db i)
        = { c with processed := c.processed + 1, skipped := c.skipped + 1 }) ∨
    (hasEvent i = true ∧ itemErr i = false ∧ itemOk i = true ∧
      ((∀ c : Counts, c.add (itemOutcome db i)
          = { c with processed := c.processed + 1, inserted := c.inserted + 1 }) ∨
        (∀ c : Counts, c.add (itemOutcome db i)
          = { c with processed := c.processed + 1, updated := c.updated + 1 }))) := by
  rcases hie : i.event with _ | e
  · left
    refine ⟨by simp [hasEvent, hie], by simp [itemErr, itemErrTitle, hie],
      by simp [itemOk, hasEvent, hie], ?_⟩
    intro c
    simp [itemOutcome, hie, Counts.add]
  · rcases hne : normalizeEvent e with _ | d
    · right; left
      refine ⟨by simp [hasEvent, hie], by simp [itemErr, itemErrTitle, hie, hne],
        by simp [itemOk, itemErr, itemErrTitle, hasEvent, hie, hne], ?_⟩
      intro c
      simp [itemOutcome, hie, hne, Counts.add]
    · rcases hti : d.title with _ | t
      · right; left
        refine ⟨by simp [hasEvent, hie], by simp [itemErr, itemErrTitle, hie, hne, hti],
          by simp [itemOk, itemErr, itemErrTitle, hasEvent, hie, hne, hti], ?_⟩
        intro c
        simp [itemOutcome, hie, hne, hti, Counts.add]
      · right; right
        refine ⟨by simp [hasEvent, hie], by simp [itemErr, itemErrTitle, hie, hne, hti],
          by simp [itemOk, itemErr, itemErrTitle, hasEvent, hie, hne, hti], ?_⟩
        cases hp : linkPresent db d.source_link
        · left
          intro c
          simp [itemOutcome, hie, hne, hti, hp, Counts.add]
        · right
          intro c
          have hc := linkPresent_pos_count db d.source_link hp
          simp [itemOutcome, hie, hne, hti, hp, hc, Counts.add]

theorem counts_foldl (now : Nat) :
    ∀ (items : List RawItem) (db : DB) (c : Counts),
      ((items.foldl (fun s item => (stepDB now s.1 item, s.2.add (itemOutcome s.1 item)))
          (db, c)).2).processed = c.processed + (items.filter hasEvent).length ∧
      ((items.foldl (fun s item => (stepDB now s.1 item, s.2.add (itemOutcome s.1 item)))
          (db, c)).2).skipped = c.skipped + (items.filter itemErr).length ∧
      ((items.foldl (fun s item => (stepDB now s.1 item, s.2.add (itemOutcome s.1 item)))
          (db, c)).2).inserted
        + ((items.foldl (fun s item => (stepDB now s.1 item, s.2.add (itemOutcome s.1 item)))
            (db, c)).2).updated
        = c.inserted + c.updated + (items.filter itemOk).length := by
  intro items
  induction items with
  | nil => intro db c; simp
  | cons i rest ih =>
    intro db c
    simp only [List.foldl_cons, List.filter_cons]
    rcases outcome_add_cases db i with ⟨h1, h2, h3, hadd⟩ | ⟨h1, h2, h3, hadd⟩
      | ⟨h1, h2, h3, hadd'⟩
    · rw [hadd c]
      obtain ⟨hp, hs, hiu⟩ := ih (stepDB now db i) c
      refine ⟨?_, ?_, ?_⟩
      · rw [hp]; simp [h1]
      · rw [hs]; simp [h2]
      · rw [hiu]; simp [h3]
    · rw [hadd c]
      obtain ⟨hp, hs, hiu⟩ := ih (stepDB now db i)
        { c with processed := c.processed + 1, skipped := c.skipped + 1 }
      refine ⟨?_, ?_, ?_⟩
      · rw [hp]; simp [h1]; omega
      · rw [hs]; simp [h2]; omega
      · rw [hiu]; simp [h3]
    · rcases hadd' with hadd | hadd
      · rw [hadd c]
        obtain ⟨hp, hs, hiu⟩ := ih (stepDB now db i)
          { c with processed := c.processed + 1, inserted := c.inserted + 1 }
        refine ⟨?_, ?_, ?_⟩
        · rw [hp]; simp [h1]; omega
        · rw [hs]; simp [h2]
        · rw [hiu]; simp [h3]; omega
      · rw [hadd c]
        obtain ⟨hp, hs, hiu⟩ := ih (stepDB now db i)
          { c with processed := c.processed + 1, updated := c.updated + 1 }
        refine ⟨?_, ?_, ?_⟩
        · rw [hp]; simp [h1]; omega
        · rw [hs]; simp [h2]
        · rw [hiu]; simp [h3]; omega

theorem transform_counts (now : Nat) (db : DB) (items : List RawItem) :
    ((transformAndSaveEvents now db items).2).processed = (items.filter hasEvent).length ∧
      ((transformAndSaveEvents now db items).2).skipped = (items.filter itemErr).length ∧
      ((transformAndSaveEvents now db items).2).inserted
          + ((transformAndSaveEvents now db items).2).updated
        = (items.filter itemOk).length := by
  have h := counts_foldl now items db Counts.zero
  simpa [transformAndSaveEvents, Counts.zero] using h

theorem length_filterMap_isSome {α β : Type} (f : α → Option β) :
    ∀ l : List α, (l.filterMap f).length = (l.filter fun a => (f a).isSome).length := by
  intro l
  induction l with
  | nil => rfl
  | cons x l ih =>
    cases hx : f x with
    | none => simp [List.filterMap_cons, List.filter_cons, hx, ih]
    | some b => simp [List.filterMap_cons, List.filter_cons, hx, ih]

theorem filterMap_single {α β : Type} (f : α → Option β) :
    ∀ l : List α, (l.filter fun a => (f a).isSome).length = 1 →
      ∀ a ∈ l, ∀ b, f a = some b → l.filterMap f = [b] := by
  intro l
  induction l with
  | nil => intro h; simp at h
  | cons x l ih =>
    intro h a ha b hb
    cases hx : f x with
    | some bx =>
      have hlen0 : (l.filter fun a => (f a).isSome).length = 0 := by
        simp only [List.filter_cons, hx, Option.isSome_some, reduceIte, List.length_cons] at h
        omega
      have hnil : l.filterMap f = [] := by
        rw [← List.length_eq_zero, length_filterMap_isSome]
        exact hlen0
      rcases List.mem_cons.mp ha with rfl | hmem
      · rw [hx] at hb
        obtain rfl := Option.some.inj hb
        simp [List.filterMap_cons, hx, hnil]
      · exfalso
        have hmemf : a ∈ l.filter fun a => (f a).isSome :=
          List.mem_filter.mpr ⟨hmem, by simp [hb]⟩
        rw [List.length_eq_zero] at hlen0
        rw [hlen0] at hmemf
        cases hmemf
    | none =>
      have h' : (l.filter fun a => (f a).isSome).length = 1 := by
        simpa [List.filter_cons, hx] using h
      rcases List.mem_cons.mp ha with rfl | hmem
      · rw [hx] at hb
        exact Option.noConfusion hb
      · rw [List.filterMap_cons_none hx]
        exact ih h' a hmem b hb

theorem ok_err_partition :
    ∀ l : List RawItem, (∀ i ∈ l, hasEvent i = true) →
      (l.filter itemOk).length + (l.filter itemErr).length = l.length := by
  intro l
  induction l with
  | nil => intro; rfl
  | cons i rest ih =>
    intro h
    have hi : hasEvent i = true := h i (List.mem_cons_self i rest)
    have hr := ih fun j hj => h j (List.mem_cons_of_mem i hj)
    cases he : itemErr i
    · have hok : itemOk i = true := by simp [itemOk, hi, he]
      simp [List.filter_cons, hok, he]
      omega
    · have hok : itemOk i = false := by simp [itemOk, he]
      simp [List.filter_cons, hok, he]
      omega

/-- C4: a batch in which every item carries an event object and exactly one
item fails normalization yields all N items processed, exactly one skipped
error, N-1 successfully reconciled (inserted or updated) events, and exactly
one warning log line carrying the failing item's title; the failure does not
abort processing of the rest of the batch. -/
theorem partial_failure_isolation (now : Nat) (db : DB) (items : List RawItem)
    (hev : ∀ i ∈ items, hasEvent i = true)
    (herr : (items.filter itemErr).length = 1) :
    ((transformAndSaveEvents now db items).2).processed = items.length ∧
      ((transformAndSaveEvents now db items).2).skipped = 1 ∧
      ((transformAndSaveEvents now db items).2).inserted
          + ((transformAndSaveEvents now db items).2).updated + 1 = items.length ∧
      (errorLog items).length = 1 ∧
      (∀ i ∈ items, ∀ ti, itemErrTitle i = some ti → errorLog items = [ti]) := by
  obtain ⟨hp, hs, hiu⟩ := transform_counts now db items
  have hfe : items.filter hasEvent = items := List.filter_eq_self.mpr hev
  have hpart := ok_err_partition items hev
  have herr' : (items.filter fun a => (itemErrTitle a).isSome).length = 1 := herr
  refine ⟨by rw [hp, hfe], by rw [hs, herr], by omega, ?_, ?_⟩
  · rw [errorLog, length_filterMap_isSome]
    exact herr'
  · intro i hi ti hti
    exact filterMap_single itemErrTitle items herr' i hi ti hti

/-- C4 witness: a three-item batch whose middle item has a malformed date. -/
theorem partial_failure_isolation_witness :
    (∀ i ∈ [exampleItem, badDateItem, otherItem], hasEvent i = true) ∧
      (([exampleItem, badDateItem, otherItem].filter itemErr).length = 1) ∧
      (((transformAndSaveEvents 5 emptyDB [exampleItem, badDateItem, otherItem]).2).processed
          = [exampleItem, badDateItem, otherItem].length ∧
        ((transformAndSaveEvents 5 emptyDB [exampleItem, badDateItem, otherItem]).2).skipped = 1 ∧
        ((transformAndSaveEvents 5 emptyDB [exampleItem, badDateItem, otherItem]).2).inserted
            + ((transformAndSaveEvents 5 emptyDB
                [exampleItem, badDateItem, otherItem]).2).updated + 1
          = [exampleItem, badDateItem, otherItem].length ∧
        (errorLog [exampleItem, badDateItem, otherItem]).length = 1 ∧
        (∀ i ∈ [exampleItem, badDateItem, otherItem], ∀ ti, itemErrTitle i = some ti →
          errorLog [exampleItem, badDateItem, otherItem] = [ti])) :=
  ⟨by decide, by decide,
    partial_failure_isolation 5 emptyDB [exampleItem, badDateItem, otherItem]
      (by decide) (by decide)⟩

/-! ## Pagination behaviour of the fetch loop -/

theorem fetchLoop_good :
    ∀ (good : List (List RawItem)) (tail : List PageResult) (acc : List RawItem),
      (∀ l ∈ good, l ≠ []) →
      fetchLoop (good.map PageResult.page ++ tail) acc
        = fetchLoop tail (acc ++ good.flatten) := by
  intro good
  induction good with
  | nil => intro tail acc h; simp
  | cons l g ih =>
    intro tail acc h
    have hl : l ≠ [] := h l (List.mem_cons_self l g)
    rcases l with _ | ⟨x, xs⟩
    · exact absurd rfl hl
    · rw [List.map_cons, List.cons_append,
        show fetchLoop (PageResult.page (x :: xs) :: (List.map PageResult.page g ++ tail)) acc
          = fetchLoop (List.map PageResult.page g ++ tail) (acc ++ (x :: xs)) from rfl,
        ih tail (acc ++ (x :: xs)) fun m hm => h m (List.mem_cons_of_mem _ hm),
        show ((x :: xs) :: g).flatten = (x :: xs) ++ g.flatten from rfl,
        List.append_assoc]

/-- C5: when the upstream serves some non-empty pages followed by a fatal
response (transport error, upstream error payload, or followed by an empty
page), `fetch_events_from_api` returns exactly the concatenation of the pages
before the fatal one, without raising; with no fatal page it returns the
concatenation of all pages. -/
theorem fetch_partial_results (good : List (List RawItem)) (rest : List PageResult)
    (h : ∀ l ∈ good, l ≠ []) :
    fetchEventsFromApi (good.map PageResult.page ++ PageResult.transportError :: rest)
        = good.flatten ∧
      fetchEventsFromApi (good.map PageResult.page ++ PageResult.apiError :: rest)
        = good.flatten ∧
      fetchEventsFromApi (good.map PageResult.page ++ PageResult.page [] :: rest)
        = good.flatten ∧
      fetchEventsFromApi (good.map PageResult.page) = good.flatten := by
  refine ⟨?_, ?_, ?_, ?_⟩
  · rw [fetchEventsFromApi, fetchLoop_good good (PageResult.transportError :: rest) [] h]
    simp [fetchLoop]
  · rw [fetchEventsFromApi, fetchLoop_good good (PageResult.apiError :: rest) [] h]
    simp [fetchLoop]
  · rw [fetchEventsFromApi, fetchLoop_good good (PageResult.page [] :: rest) [] h]
    simp [fetchLoop]
  · rw [fetchEventsFromApi, show good.map PageResult.page = good.map PageResult.page ++ []
      from (List.append_nil _).symm, fetchLoop_good good [] [] h]
    simp [fetchLoop]

/-- C5 witness: two non-empty pages, then each terminator. -/
theorem fetch_partial_results_witness :
    (∀ l ∈ [[exampleItem], [otherItem, exampleItem]], l ≠ []) ∧
      (fetchEventsFromApi ([[exampleItem], [otherItem, exampleItem]].map PageResult.page
            ++ PageResult.transportError :: [PageResult.page [badDateItem]])
          = [[exampleItem], [otherItem, exampleItem]].flatten ∧
        fetchEventsFromApi ([[exampleItem], [otherItem, exampleItem]].map PageResult.page
            ++ PageResult.apiError :: [PageResult.page [badDateItem]])
          = [[exampleItem], [otherItem, exampleItem]].flatten ∧
        fetchEventsFromApi ([[exampleItem], [otherItem, exampleItem]].map PageResult.page
            ++ PageResult.page [] :: [PageResult.page [badDateItem]])
          = [[exampleItem], [otherItem, exampleItem]].flatten ∧
        fetchEventsFromApi ([[exampleItem], [otherItem, exampleItem]].map PageResult.page)
          = [[exampleItem], [otherItem, exampleItem]].flatten) :=
  ⟨by decide,
    fetch_partial_results [[exampleItem], [otherItem, exampleItem]]
      [PageResult.page [badDateItem]] (by decide)⟩

/-! ## Field derivation of normalization -/

theorem normalizeEvent_fields (e : RawEvent) (d : Draft) (h : normalizeEvent e = some d) :
    d.title = e.title ∧ d.club_name = clubNameField e.venue ∧
      d.artists = artistsField e.artists ∧ d.attending_count = e.attending.getD 0 ∧
      d.buy_link = sourceLinkField e ∧ d.flyer_image = flyerField e.images ∧
      d.source_link = sourceLinkField e := by
  rcases hd : e.date with _ | ds
  · simp only [normalizeEvent, hd] at h
    exact Option.noConfusion h
  rcases hs : e.startTime with _ | ss
  · simp only [normalizeEvent, hd, hs] at h
    exact Option.noConfusion h
  rcases he : e.endTime with _ | es
  · simp only [normalizeEvent, hd, hs, he] at h
    exact Option.noConfusion h
  rcases hp1 : parseIso ds with _ | dp
  · simp only [normalizeEvent, hd, hs, he, hp1] at h
    exact Option.noConfusion h
  rcases hp2 : parseIso ss with _ | sp
  · simp only [normalizeEvent, hd, hs, he, hp1, hp2] at h
    exact Option.noConfusion h
  rcases hp3 : parseIso es with _ | ep
  · simp only [normalizeEvent, hd, hs, he, hp1, hp2, hp3] at h
    exact Option.noConfusion h
  simp only [normalizeEvent, hd, hs, he, hp1, hp2, hp3] at h
  obtain rfl := Option.some.inj h
  exact ⟨rfl, rfl, rfl, rfl, rfl, rfl, rfl⟩

/-- C7 counterexample: on an item whose `date` and `startTime` fields fall on
different days, the stored `eventDate` is the date portion of the `date`
field, not of the start timestamp as the claim states. -/
theorem event_date_not_from_start_time :
    (normalizeEvent mismatchEvent).map Draft.event_date = some "2025-10-01" ∧
      mismatchEvent.startTime = some "2025-10-02T01:00:00Z" ∧
      (parseIso "2025-10-02T01:00:00Z").map Prod.fst = some "2025-10-02" ∧
      ("2025-10-01" : String) ≠ "2025-10-02" := by
  refine ⟨by decide, rfl, by decide, by decide⟩

/-- C7 amended: for parseable timestamps, normalization derives `eventDate`
as the date portion (`YYYY-MM-DD`) of the raw item's `date` field (not of its
`startTime` field) and `startTime`/`endTime` as `HH:MM` renderings of the
corresponding timestamps, each parsed after replacing `Z` by `+00:00`; on the
spec's example item (whose `date` equals its start timestamp) this yields
`"2025-10-01"`, `"22:00"` and `"06:00"`. -/
theorem normalized_times (e : RawEvent) (ds ss es dd dt sd st ed et : String)
    (h1 : e.date = some ds) (h2 : e.startTime = some ss) (h3 : e.endTime = some es)
    (p1 : parseIso ds = some (dd, dt)) (p2 : parseIso ss = some (sd, st))
    (p3 : parseIso es = some (ed, et)) :
    ∃ d, normalizeEvent e = some d ∧ d.event_date = dd ∧ d.start_time = st ∧
      d.end_time = et := by
  refine ⟨{ title := e.title
            club_name := clubNameField e.venue
            event_date := dd
            start_time := st
            end_time := et
            artists := artistsField e.artists
            attending_count := e.attending.getD 0
            buy_link := sourceLinkField e
            flyer_image := flyerField e.images
            source_link := sourceLinkField e }, ?_, rfl, rfl, rfl⟩
  simp only [normalizeEvent, h1, h2, h3, p1, p2, p3]

/-- C7 witness: the spec's example timestamps. -/
theorem normalized_times_witness :
    exampleEvent.date = some "2025-10-01T22:00:00Z" ∧
      parseIso "2025-10-01T22:00:00Z" = some ("2025-10-01", "22:00") ∧
      parseIso "2025-10-02T06:00:00Z" = some ("2025-10-02", "06:00") ∧
      (∃ d, normalizeEvent exampleEvent = some d ∧ d.event_date = "2025-10-01" ∧
        d.start_time = "22:00" ∧ d.end_time = "06:00") :=
  ⟨rfl, by decide, by decide,
    normalized_times exampleEvent "2025-10-01T22:00:00Z" "2025-10-01T22:00:00Z"
      "2025-10-02T06:00:00Z" "2025-10-01" "22:00" "2025-10-01" "22:00" "2025-10-02" "06:00"
      rfl rfl rfl (by decide) (by decide) (by decide)⟩

/-! ## Sentinel behaviour of the artists and club fields -/

theorem artistNames_mem_ne_empty (l : List RawArtist) (n : String) (h : n ∈ artistNames l) :
    n ≠ "" := by
  simp only [artistNames, List.mem_filterMap] at h
  obtain ⟨a, _, ha⟩ := h
  rcases hn : a.name with _ | s
  · simp only [hn] at ha
    exact Option.noConfusion ha
  · simp only [hn] at ha
    by_cases hs : s = ""
    · rw [if_pos hs] at ha
      exact Option.noConfusion ha
    · rw [if_neg hs] at ha
      obtain rfl := Option.some.inj ha
      exact hs

theorem joinComma_ne_empty (n : String) (rest : List String) (h : n ≠ "") :
    joinComma (n :: rest) ≠ "" := by
  cases rest with
  | nil => simpa [joinComma] using h
  | cons b bs =>
    intro hc
    simp only [joinComma] at hc
    have hlen := congrArg String.length hc
    have hsep : (", " : String).length = 2 := rfl
    have h0 : ("" : String).length = 0 := rfl
    rw [String.length_append, String.length_append, hsep, h0] at hlen
    omega

theorem artistsField_ne_empty (l : List RawArtist) : artistsField l ≠ "" := by
  simp only [artistsField]
  split
  · decide
  · next h => exact h

theorem artistsField_of_empty (l : List RawArtist) (h : artistNames l = []) :
    artistsField l = "Artistas por confirmar" := by
  simp [artistsField, h, joinComma]

theorem artistsField_of_nonempty (l : List RawArtist) (h : artistNames l ≠ []) :
    artistsField l = joinComma (artistNames l) := by
  simp only [artistsField]
  split
  · next hjc =>
    exfalso
    rcases hn : artistNames l with _ | ⟨n, ns⟩
    · exact h hn
    · rw [hn] at hjc
      have hmem : n ∈ artistNames l := by
        rw [hn]
        exact List.mem_cons_self n ns
      exact joinComma_ne_empty n ns (artistNames_mem_ne_empty l n hmem) hjc
  · rfl

/-- C8 counterexample: an item whose venue object carries an explicitly empty
name (so the item has no usable venue name) is stored with an empty
`clubName`, not with the `"TBA"` sentinel, because the Python `.get` default
applies only to an absent key. -/
theorem empty_venue_name_stored_empty :
    (normalizeEvent emptyVenueNameEvent).map Draft.club_name = some "" ∧
      (normalizeEvent emptyVenueNameEvent).map Draft.club_name ≠ some "TBA" := by
  refine ⟨by decide, by decide⟩

/-- C8 amended: for an item that normalizes successfully, an artist list with
no non-empty names yields the fixed sentinel phrase and the stored artists
string is never empty (non-empty names are joined with a comma and space);
`clubName` is `"TBA"` exactly when the venue object or its name key is
absent, while a venue name explicitly present (even empty) is stored as is. -/
theorem sentinel_fallbacks (e : RawEvent) (ds ss es dd dt sd st ed et : String)
    (h1 : e.date = some ds) (h2 : e.startTime = some ss) (h3 : e.endTime = some es)
    (p1 : parseIso ds = some (dd, dt)) (p2 : parseIso ss = some (sd, st))
    (p3 : parseIso es = some (ed, et)) :
    ∃ d, normalizeEvent e = some d ∧
      (artistNames e.artists = [] → d.artists = "Artistas por confirmar") ∧
      (artistNames e.artists ≠ [] → d.artists = joinComma (artistNames e.artists)) ∧
      d.artists ≠ "" ∧
      (e.venue = none → d.club_name = "TBA") ∧
      (∀ v, e.venue = some v → v.name = none → d.club_name = "TBA") ∧
      (∀ v s, e.venue = some v → v.name = some s → d.club_name = s) := by
  refine ⟨{ title := e.title
            club_name := clubNameField e.venue
            event_date := dd
            start_time := st
            end_time := et
            artists := artistsField e.artists
            attending_count := e.attending.getD 0
            buy_link := sourceLinkField e
            flyer_image := flyerField e.images
            source_link := sourceLinkField e }, ?_, ?_, ?_, ?_, ?_, ?_, ?_⟩
  · simp only [normalizeEvent, h1, h2, h3, p1, p2, p3]
  · exact artistsField_of_empty e.artists
  · exact artistsField_of_nonempty e.artists
  · exact artistsField_ne_empty e.artists
  · intro hv
    simp [clubNameField, hv]
  · intro v hv hn
    simp [clubNameField, hv, hn]
  · intro v s hv hn
    simp [clubNameField, hv, hn]

/-- C8 witness: the spec example (empty artist list, venue named "Y"). -/
theorem sentinel_fallbacks_witness :
    exampleEvent.date = some "2025-10-01T22:00:00Z" ∧
      artistNames exampleEvent.artists = [] ∧
      (∃ d, normalizeEvent exampleEvent = some d ∧
        (artistNames exampleEvent.artists = [] → d.artists = "Artistas por confirmar") ∧
        (artistNames exampleEvent.artists ≠ [] →
          d.artists = joinComma (artistNames exampleEvent.artists)) ∧
        d.artists ≠ "" ∧
        (exampleEvent.venue = none → d.club_name = "TBA") ∧
        (∀ v, exampleEvent.venue = some v → v.name = none → d.club_name = "TBA") ∧
        (∀ v s, exampleEvent.venue = some v → v.name = some s → d.club_name = s)) :=
  ⟨rfl, rfl,
    sentinel_fallbacks exampleEvent "2025-10-01T22:00:00Z" "2025-10-01T22:00:00Z"
      "2025-10-02T06:00:00Z" "2025-10-01" "22:00" "2025-10-01" "22:00" "2025-10-02" "06:00"
      rfl rfl rfl (by decide) (by decide) (by decide)⟩

/-! ## What the "updated" counter actually counts -/

/-- C6 counterexample: re-ingesting an event whose upstream data is
byte-for-byte identical to the stored row leaves every column unchanged yet
still increments the "updated" counter, because `cursor.rowcount` after the
UPDATE counts matched rows, not value-changed rows. -/
theorem identical_resight_counted_updated :
    ((transformAndSaveEvents 7 (transformAndSaveEvents 5 emptyDB [exampleItem]).1
          [exampleItem]).2).updated = 1 ∧
      (transformAndSaveEvents 7 (transformAndSaveEvents 5 emptyDB [exampleItem]).1
          [exampleItem]).1
        = (transformAndSaveEvents 5 emptyDB [exampleItem]).1 := by
  refine ⟨by decide, by decide⟩

/-- C6 amended: for an item that reaches a successful write, the run's
"updated" outcome occurs if and only if a row with the event's `sourceLink`
already exists (the UPDATE matched at least one row), regardless of whether
any column value actually changes; otherwise the outcome is "inserted". -/
theorem updated_iff_row_matched (db : DB) (i : RawItem) (e : RawEvent) (d : Draft)
    (t : String) (h1 : i.event = some e) (h2 : normalizeEvent e = some d)
    (h3 : d.title = some t) :
    (itemOutcome db i = Outcome.updated ↔ linkPresent db d.source_link = true) ∧
      (itemOutcome db i = Outcome.inserted ↔ linkPresent db d.source_link = false) := by
  cases hp : linkPresent db d.source_link
  · have ho : itemOutcome db i = Outcome.inserted := by
      simp [itemOutcome, h1, h2, h3, hp]
    rw [ho]
    simp
  · have hc := linkPresent_pos_count db d.source_link hp
    have ho : itemOutcome db i = Outcome.updated := by
      simp [itemOutcome, h1, h2, h3, hp, hc]
    rw [ho]
    simp

/-- C6 amendment witness: the second sighting of the example item. -/
theorem updated_iff_row_matched_witness :
    exampleItem.event = some exampleEvent ∧
      ((itemOutcome (transformAndSaveEvents 5 emptyDB [exampleItem]).1 exampleItem
            = Outcome.updated ↔
          linkPresent (transformAndSaveEvents 5 emptyDB [exampleItem]).1
            ((normalizeEvent exampleEvent).getD default).source_link = true) ∧
        (itemOutcome (transformAndSaveEvents 5 emptyDB [exampleItem]).1 exampleItem
            = Outcome.inserted ↔
          linkPresent (transformAndSaveEvents 5 emptyDB [exampleItem]).1
            ((normalizeEvent exampleEvent).getD default).source_link = false)) :=
  ⟨rfl,
    updated_iff_row_matched (transformAndSaveEvents 5 emptyDB [exampleItem]).1
      exampleItem exampleEvent ((normalizeEvent exampleEvent).getD default) "X"
      rfl rfl rfl⟩

/-! ## What the entry point returns and what it can distinguish -/

/-- C9 counterexample: the pipeline's return value is a single counter, and a
fatal fetch error on the very first page is indistinguishable from a run that
finds zero events. Concretely: the fetch result and the whole `__main__`
outcome coincide for a first-page transport error and for a first-page empty
page; and two batches with different processed/skipped summaries yield the
same return value, so the return value cannot contain the four counts. -/
theorem first_page_error_indistinguishable :
    fetchEventsFromApi [PageResult.transportError] = fetchEventsFromApi [PageResult.page []] ∧
      mainRun 5 emptyDB [PageResult.transportError] = mainRun 5 emptyDB [PageResult.page []] ∧
      transformReturn 5 emptyDB [badDateItem] = transformReturn 5 emptyDB [] ∧
      (transformAndSaveEvents 5 emptyDB [badDateItem]).2
        ≠ (transformAndSaveEvents 5 emptyDB []).2 := by
  refine ⟨rfl, rfl, by decide, by decide⟩

/-- C9 amended: `transform_and_save_events` returns only the inserted count
(the other counters are printed, not returned), it is a total function (no
exception escapes the per-item handler), and a fatal response on the very
first page yields the same empty item list — and the same untouched storage
in the `__main__` flow — as an upstream with zero events. -/
theorem summary_shape (now : Nat) (db : DB) (items : List RawItem)
    (rest : List PageResult) :
    transformReturn now db items = (transformAndSaveEvents now db items).2.inserted ∧
      fetchEventsFromApi (PageResult.transportError :: rest) = [] ∧
      fetchEventsFromApi (PageResult.apiError :: rest) = [] ∧
      fetchEventsFromApi (PageResult.page [] :: rest) = [] ∧
      mainRun now db (PageResult.transportError :: rest) = (db, none) ∧
      mainRun now db (PageResult.page [] :: rest) = (db, none) := by
  exact ⟨rfl, rfl, rfl, rfl, rfl, rfl⟩

/-! ## The buy link is always the source link -/

theorem buy_link_eq_source_step (now : Nat) (db : DB) (i : RawItem)
    (hdb : ∀ r ∈ db.rows, r.mutCols.buy_link = r.source_link) :
    ∀ r ∈ (stepDB now db i).rows, r.mutCols.buy_link = r.source_link := by
  cases hok : okLink i with
  | none =>
    rw [stepDB_of_okLink_none now db i hok]
    exact hdb
  | some l =>
    obtain ⟨e, d, t, h1, h2, h3, h4⟩ := okLink_spec i l hok
    have hbs : d.buy_link = d.source_link := by
      obtain ⟨_, _, _, _, hb, _, hs⟩ := normalizeEvent_fields e d h2
      rw [hb, hs]
    rw [stepDB_ok now db i e d t h1 h2 h3]
    split
    · intro r hr
      simp only [updateRows, List.mem_map] at hr
      obtain ⟨r0, hr0, rfl⟩ := hr
      split
      · next hsl =>
        simp only [Draft.mutWith]
        rw [hbs, hsl]
      · exact hdb r0 hr0
    · intro r hr
      simp only [insertRow, List.mem_append, List.mem_singleton] at hr
      rcases hr with hr | rfl
      · exact hdb r hr
      · simp only [Draft.mutWith]
        exact hbs

theorem buy_link_eq_source_run (now : Nat) :
    ∀ (items : List RawItem) (db : DB),
      (∀ r ∈ db.rows, r.mutCols.buy_link = r.source_link) →
      ∀ r ∈ (runDB now db items).rows, r.mutCols.buy_link = r.source_link := by
  intro items
  induction items with
  | nil => intro db hdb; exact hdb
  | cons i rest ih =>
    intro db hdb
    simp only [runDB, List.foldl_cons]
    exact ih (stepDB now db i) (buy_link_eq_source_step now db i hdb)

/-- C10: every successfully normalized draft has `buyLink` exactly equal to
`sourceLink` (both the fixed base URL concatenated with the item's
`contentUrl`), and ingestion preserves the storage invariant that every
persisted row's `buy_link` column equals its `source_link` column. -/
theorem buy_link_always_source_link (now : Nat) (db : DB) (items : List RawItem)
    (e : RawEvent) (d : Draft) (h : normalizeEvent e = some d)
    (hdb : ∀ r ∈ db.rows, r.mutCols.buy_link = r.source_link) :
    d.buy_link = d.source_link ∧ d.buy_link = sourceLinkField e ∧
      ∀ r ∈ (transformAndSaveEvents now db items).1.rows,
        r.mutCols.buy_link = r.source_link := by
  obtain ⟨_, _, _, _, hb, _, hs⟩ := normalizeEvent_fields e d h
  refine ⟨by rw [hb, hs], hb, ?_⟩
  rw [transform_fst]
  exact buy_link_eq_source_run now items db hdb

/-- C10 witness at a concrete input. -/
theorem buy_link_always_source_link_witness :
    normalizeEvent exampleEvent = some ((normalizeEvent exampleEvent).getD default) ∧
      (((normalizeEvent exampleEvent).getD default).buy_link
          = ((normalizeEvent exampleEvent).getD default).source_link ∧
        ((normalizeEvent exampleEvent).getD default).buy_link
          = sourceLinkField exampleEvent ∧
        ∀ r ∈ (transformAndSaveEvents 5 emptyDB [exampleItem, otherItem]).1.rows,
          r.mutCols.buy_link = r.source_link) :=
  ⟨rfl,
    buy_link_always_source_link 5 emptyDB [exampleItem, otherItem] exampleEvent
      ((normalizeEvent exampleEvent).getD default) rfl (by simp [emptyDB])⟩

/-! ## Idempotence machinery -/

theorem eventRow_ext (r r' : EventRow) (h1 : r'.id = r.id) (h2 : r'.source_link = r.source_link)
    (h3 : r'.mutCols = r.mutCols) (h4 : r'.notified = r.notified)
    (h5 : r'.date_added = r.date_added) : r' = r := by
  cases r
  cases r'
  simp_all

theorem rowRel_refl (l : String) (r : EventRow) : RowRel l r r :=
  ⟨rfl, rfl, rfl, rfl, fun _ => rfl⟩

theorem any_eq_any_links :
    ∀ (rows : List EventRow) (x : String),
      (rows.any fun r => r.source_link == x)
        = ((rows.map fun r => r.source_link).any fun s => s == x) := by
  intro rows x
  induction rows with
  | nil => rfl
  | cons r rest ih => simp only [List.any_cons, List.map_cons, ih]

theorem forall₂_links :
    ∀ (l : String) (rows rows' : List EventRow), List.Forall₂ (RowRel l) rows rows' →
      (rows'.map fun r => r.source_link) = rows.map fun r => r.source_link := by
  intro l rows rows' h
  induction h with
  | nil => rfl
  | cons hr _ ih =>
    simp only [List.map_cons, ih]
    rw [hr.2.1]

theorem dbRel_linkPresent (l : String) (db db' : DB) (h : DBRel l db db') (x : String) :
    linkPresent db' x = linkPresent db x := by
  simp only [linkPresent]
  rw [any_eq_any_links db.rows x, any_eq_any_links db'.rows x, forall₂_links l db.rows db'.rows h.2]

theorem forall₂_rowRel_update (l : String) (m : MutCols) :
    ∀ rows : List EventRow, List.Forall₂ (RowRel l) rows (updateRows rows l m) := by
  intro rows
  induction rows with
  | nil => exact List.Forall₂.nil
  | cons r rest ih =>
    simp only [updateRows, List.map_cons]
    refine List.Forall₂.cons ?_ ih
    by_cases hl : r.source_link = l
    · rw [if_pos hl]
      exact ⟨rfl, rfl, rfl, rfl, fun hc => absurd hl hc⟩
    · rw [if_neg hl]
      exact rowRel_refl l r

theorem dbrel_update (db : DB) (l : String) (m : MutCols) :
    DBRel l db { rows := updateRows db.rows l m, nextId := db.nextId } := by
  refine ⟨rfl, ?_⟩
  exact forall₂_rowRel_update l m db.rows

theorem updateRows_congr (l : String) (m : MutCols) :
    ∀ (rows rows' : List EventRow), List.Forall₂ (RowRel l) rows rows' →
      updateRows rows' l m = updateRows rows l m := by
  intro rows rows' h
  induction h with
  | cons hr htl ih =>
    next r r' tl tl' =>
    simp only [updateRows, List.map_cons] at ih ⊢
    rw [ih, hr.2.1]
    by_cases hl : r.source_link = l
    · rw [if_pos hl, if_pos hl]
      refine congrArg (· :: List.map _ tl) ?_
      exact eventRow_ext _ _ hr.1 rfl rfl hr.2.2.1 hr.2.2.2.1
    · rw [if_neg hl, if_neg hl, hr.2.2.2.2 hl]
  | nil => rfl

theorem forall₂_eq_of_absent (l : String) :
    ∀ (rows rows' : List EventRow), List.Forall₂ (RowRel l) rows rows' →
      (∀ r ∈ rows, r.source_link ≠ l) → rows' = rows := by
  intro rows rows' h
  induction h with
  | nil => intro; rfl
  | cons hr htl ih =>
    next r r' tl tl' =>
    intro hall
    rw [ih fun x hx => hall x (List.mem_cons_of_mem _ hx),
      hr.2.2.2.2 (hall r (List.mem_cons_self _ _))]

theorem dbrel_eq_of_absent (l : String) (db db' : DB) (hrel : DBRel l db db')
    (hp : linkPresent db l = false) : db' = db := by
  have hall := (not_linkPresent_iff db l).mp hp
  have hrows : db'.rows = db.rows := forall₂_eq_of_absent l db.rows db'.rows hrel.2 hall
  cases db
  cases db'
  simp_all [DBRel]

theorem dbrel_step (now : Nat) (l : String) (db db' : DB) (i : RawItem)
    (hrel : DBRel l db db') (hne : okLink i ≠ some l) :
    DBRel l (stepDB now db i) (stepDB now db' i) := by
  cases hok : okLink i with
  | none =>
    rw [stepDB_of_okLink_none now db i hok, stepDB_of_okLink_none now db' i hok]
    exact hrel
  | some l' =>
    have hll : l' ≠ l := by
      intro hc
      rw [hc] at hok
      exact hne hok
    obtain ⟨e, d, t, h1, h2, h3, h4⟩ := okLink_spec i l' hok
    subst h4
    rw [stepDB_ok now db i e d t h1 h2 h3, stepDB_ok now db' i e d t h1 h2 h3,
      dbRel_linkPresent l db db' hrel d.source_link]
    split
    · refine ⟨hrel.1, ?_⟩
      -- pointwise: updating a link different from l preserves the relation
      have key : ∀ (rows rows' : List EventRow), List.Forall₂ (RowRel l) rows rows' →
          List.Forall₂ (RowRel l) (updateRows rows d.source_link (d.mutWith t))
            (updateRows rows' d.source_link (d.mutWith t)) := by
        intro rows rows' h
        induction h with
        | nil => exact List.Forall₂.nil
        | cons hr htl ih =>
          next r r' tl tl' =>
          simp only [updateRows, List.map_cons] at ih ⊢
          refine List.Forall₂.cons ?_ ih
          rw [hr.2.1]
          by_cases hl : r.source_link = d.source_link
          · have hrr : r' = r := hr.2.2.2.2 (by rw [hl]; exact hll)
            rw [hrr]
            exact rowRel_refl l _
          · rw [if_neg hl, if_neg hl]
            exact hr
      exact key db.rows db'.rows hrel.2
    · refine ⟨by simp only [insertRow]; rw [hrel.1], ?_⟩
      simp only [insertRow]
      refine List.rel_append hrel.2 ?_
      rw [hrel.1]
      exact List.Forall₂.cons (rowRel_refl l _) List.Forall₂.nil

theorem dbrel_step_collapse (now : Nat) (db db' : DB) (i : RawItem) (l : String)
    (hrel : DBRel l db db') (hok : okLink i = some l) :
    stepDB now db' i = stepDB now db i := by
  obtain ⟨e, d, t, h1, h2, h3, h4⟩ := okLink_spec i l hok
  subst h4
  rw [stepDB_ok now db i e d t h1 h2 h3, stepDB_ok now db' i e d t h1 h2 h3,
    dbRel_linkPresent d.source_link db db' hrel d.source_link]
  cases hp : linkPresent db d.source_link
  · rw [if_neg Bool.false_ne_true, if_neg Bool.false_ne_true,
      dbrel_eq_of_absent d.source_link db db' hrel hp]
  · rw [if_pos rfl, if_pos rfl]
    simp only [DB.mk.injEq]
    exact ⟨updateRows_congr d.source_link (d.mutWith t) db.rows db'.rows hrel.2, hrel.1⟩

theorem dbrel_run_collapse (now : Nat) (l : String) :
    ∀ (s : List RawItem) (db db' : DB), DBRel l db db' →
      (∃ j ∈ s, okLink j = some l) → runDB now db' s = runDB now db s := by
  intro s
  induction s with
  | nil =>
    intro db db' _ hex
    obtain ⟨j, hj, _⟩ := hex
    cases hj
  | cons j s' ih =>
    intro db db' hrel hex
    simp only [runDB, List.foldl_cons]
    by_cases hj : okLink j = some l
    · rw [dbrel_step_collapse now db db' j l hrel hj]
    · have hrel' := dbrel_step now l db db' j hrel hj
      have hex' : ∃ j' ∈ s', okLink j' = some l := by
        obtain ⟨j', hj', hokj'⟩ := hex
        rcases List.mem_cons.mp hj' with rfl | hmem
        · exact absurd hokj' hj
        · exact ⟨j', hmem, hokj'⟩
      exact ih (stepDB now db j) (stepDB now db' j) hrel' hex'

theorem step_sets_mut (now : Nat) (db : DB) (i : RawItem) (e : RawEvent) (d : Draft)
    (t : String) (h1 : i.event = some e) (h2 : normalizeEvent e = some d)
    (h3 : d.title = some t) :
    ∀ r ∈ (stepDB now db i).rows, r.source_link = d.source_link →
      r.mutCols = d.mutWith t := by
  rw [stepDB_ok now db i e d t h1 h2 h3]
  split
  · intro r hr hl
    simp only [updateRows, List.mem_map] at hr
    obtain ⟨r0, hr0, rfl⟩ := hr
    by_cases heq : r0.source_link = d.source_link
    · rw [if_pos heq]
    · rw [if_neg heq] at hl
      exact absurd hl heq
  · next hp =>
    have hall := (not_linkPresent_iff db d.source_link).mp (by
      cases hb : linkPresent db d.source_link
      · rfl
      · exact absurd hb hp)
    intro r hr hl
    simp only [insertRow, List.mem_append, List.mem_singleton] at hr
    rcases hr with hr | rfl
    · exact absurd hl (hall r hr)
    · rfl

theorem mut_stable_step (now : Nat) (db : DB) (i : RawItem) (l : String) (m : MutCols)
    (hne : okLink i ≠ some l)
    (h : ∀ r ∈ db.rows, r.source_link = l → r.mutCols = m) :
    ∀ r ∈ (stepDB now db i).rows, r.source_link = l → r.mutCols = m := by
  cases hok : okLink i with
  | none =>
    rw [stepDB_of_okLink_none now db i hok]
    exact h
  | some l' =>
    have hll : l' ≠ l := by
      intro hc
      rw [hc] at hok
      exact hne hok
    obtain ⟨e, d, t, h1, h2, h3, h4⟩ := okLink_spec i l' hok
    rw [stepDB_ok now db i e d t h1 h2 h3]
    split
    · intro r hr hl
      simp only [updateRows, List.mem_map] at hr
      obtain ⟨r0, hr0, rfl⟩ := hr
      by_cases heq : r0.source_link = d.source_link
      · exfalso
        rw [if_pos heq] at hl
        have hl' : r0.source_link = l := hl
        rw [heq, h4] at hl'
        exact hll hl'
      · rw [if_neg heq] at hl ⊢
        exact h r0 hr0 hl
    · intro r hr hl
      simp only [insertRow, List.mem_append, List.mem_singleton] at hr
      rcases hr with hr | rfl
      · exact h r hr hl
      · exfalso
        have hl' : d.source_link = l := hl
        rw [h4] at hl'
        exact hll hl'

theorem mut_stable_run (now : Nat) (l : String) (m : MutCols) :
    ∀ (s : List RawItem) (db : DB), (∀ j ∈ s, okLink j ≠ some l) →
      (∀ r ∈ db.rows, r.source_link = l → r.mutCols = m) →
      ∀ r ∈ (runDB now db s).rows, r.source_link = l → r.mutCols = m := by
  intro s
  induction s with
  | nil => intro db _ h; exact h
  | cons j s' ih =>
    intro db hne h
    simp only [runDB, List.foldl_cons]
    exact ih (stepDB now db j) (fun j' hj' => hne j' (List.mem_cons_of_mem _ hj'))
      (mut_stable_step now db j l m (hne j (List.mem_cons_self _ _)) h)

theorem updateRows_id (rows : List EventRow) (l : String) (m : MutCols)
    (h : ∀ r ∈ rows, r.source_link = l → r.mutCols = m) :
    updateRows rows l m = rows := by
  induction rows with
  | nil => rfl
  | cons r rest ih =>
    simp only [updateRows, List.map_cons] at ih ⊢
    rw [ih fun x hx => h x (List.mem_cons_of_mem _ hx)]
    by_cases hl : r.source_link = l
    · rw [if_pos hl]
      refine congrArg (· :: rest) ?_
      exact eventRow_ext _ _ rfl rfl (h r (List.mem_cons_self _ _) hl).symm rfl rfl
    · rw [if_neg hl]

theorem run_twice_aux (n1 n2 : Nat) (db0 : DB) :
    ∀ (s p : List RawItem),
      runDB n2 (runDB n1 db0 (p ++ s)) s = runDB n1 db0 (p ++ s) := by
  intro s
  induction s with
  | nil => intro p; rfl
  | cons i s' ih =>
    intro p
    have hsplit : p ++ i :: s' = (p ++ [i]) ++ s' := by simp
    have hIH : runDB n2 (runDB n1 db0 (p ++ i :: s')) s' = runDB n1 db0 (p ++ i :: s') := by
      have h2 := ih (p ++ [i])
      rw [← hsplit] at h2
      exact h2
    show runDB n2 (stepDB n2 (runDB n1 db0 (p ++ i :: s')) i) s'
      = runDB n1 db0 (p ++ i :: s')
    cases hok : okLink i with
    | none =>
      rw [stepDB_of_okLink_none n2 _ i hok]
      exact hIH
    | some l =>
      obtain ⟨e, d, t, h1, h2, h3, h4⟩ := okLink_spec i l hok
      subst h4
      have hpres : linkPresent (runDB n1 db0 (p ++ i :: s')) d.source_link = true :=
        okLink_present_run n1 d.source_link (p ++ i :: s') db0 i (by simp) hok
      have hstep : stepDB n2 (runDB n1 db0 (p ++ i :: s')) i
          = { rows := updateRows (runDB n1 db0 (p ++ i :: s')).rows d.source_link
                (d.mutWith t)
              nextId := (runDB n1 db0 (p ++ i :: s')).nextId } := by
        rw [stepDB_ok n2 _ i e d t h1 h2 h3, if_pos hpres]
      by_cases hex : ∃ j ∈ s', okLink j = some d.source_link
      · have hrel : DBRel d.source_link (runDB n1 db0 (p ++ i :: s'))
            (stepDB n2 (runDB n1 db0 (p ++ i :: s')) i) := by
          rw [hstep]
          exact dbrel_update _ d.source_link (d.mutWith t)
        rw [dbrel_run_collapse n2 d.source_link s' _ _ hrel hex]
        exact hIH
      · have hjnone : ∀ j ∈ s', okLink j ≠ some d.source_link := by
          intro j hj hc
          exact hex ⟨j, hj, hc⟩
        have hsplit2 : runDB n1 db0 (p ++ i :: s')
            = runDB n1 (stepDB n1 (runDB n1 db0 p) i) s' := by
          rw [hsplit]
          simp only [runDB]
          rw [List.foldl_append, List.foldl_append]
          rfl
        have hmut : ∀ r ∈ (runDB n1 db0 (p ++ i :: s')).rows,
            r.source_link = d.source_link → r.mutCols = d.mutWith t := by
          rw [hsplit2]
          exact mut_stable_run n1 d.source_link (d.mutWith t) s' _ hjnone
            (step_sets_mut n1 (runDB n1 db0 p) i e d t h1 h2 h3)
        have hDid : stepDB n2 (runDB n1 db0 (p ++ i :: s')) i
            = runDB n1 db0 (p ++ i :: s') := by
          rw [hstep, updateRows_id _ _ _ hmut]
        rw [hDid]
        exact hIH

theorem add_inserted_of_not_inserted (c : Counts) (o : Outcome) (h : o ≠ Outcome.inserted) :
    (c.add o).inserted = c.inserted := by
  cases o
  · rfl
  · rfl
  · exact absurd rfl h
  · rfl
  · rfl

theorem itemOutcome_not_inserted_of_present (db : DB) (j : RawItem)
    (hp : ∀ l', okLink j = some l' → linkPresent db l' = true) :
    itemOutcome db j ≠ Outcome.inserted := by
  rcases hie : j.event with _ | e
  · simp [itemOutcome, hie]
  · rcases hne : normalizeEvent e with _ | d
    · simp [itemOutcome, hie, hne]
    · rcases hti : d.title with _ | t
      · simp [itemOutcome, hie, hne, hti]
      · have hok : okLink j = some d.source_link := by
          simp only [okLink, hie, hne, hti]
        have hp' := hp d.source_link hok
        have hc := linkPresent_pos_count db d.source_link hp'
        simp [itemOutcome, hie, hne, hti, hp', hc]

theorem inserted_stable_foldl (now : Nat) :
    ∀ (s : List RawItem) (db : DB) (c : Counts),
      (∀ j ∈ s, ∀ l', okLink j = some l' → linkPresent db l' = true) →
      ((s.foldl (fun st item => (stepDB now st.1 item, st.2.add (itemOutcome st.1 item)))
          (db, c)).2).inserted = c.inserted := by
  intro s
  induction s with
  | nil => intro db c _; rfl
  | cons j s' ih =>
    intro db c h
    simp only [List.foldl_cons]
    have hnext : ∀ j' ∈ s', ∀ l', okLink j' = some l' →
        linkPresent (stepDB now db j) l' = true := fun j' hj' l' hok =>
      linkPresent_step now db j l' (h j' (List.mem_cons_of_mem _ hj') l' hok)
    rw [ih (stepDB now db j) _ hnext]
    exact add_inserted_of_not_inserted c _
      (itemOutcome_not_inserted_of_present db j (h j (List.mem_cons_self _ _)))

/-- C1: re-ingesting the same raw batch after a first ingestion leaves the
storage state exactly identical (every row and the AUTOINCREMENT counter),
inserts zero new rows on the second run, leaves every pre-existing row's
`notified` flag unchanged across the first run (and hence across both, the
state being identical), and creates no duplicate rows for any `sourceLink`. -/
theorem ingest_idempotent (n1 n2 : Nat) (db0 : DB) (b : List RawItem)
    (hnd : (links db0).Nodup) :
    (transformAndSaveEvents n2 (transformAndSaveEvents n1 db0 b).1 b).1
        = (transformAndSaveEvents n1 db0 b).1 ∧
      ((transformAndSaveEvents n2 (transformAndSaveEvents n1 db0 b).1 b).2).inserted = 0 ∧
      (∀ k r, db0.rows.get? k = some r →
        ∃ r', ((transformAndSaveEvents n1 db0 b).1).rows.get? k = some r' ∧
          r'.notified = r.notified) ∧
      (links (transformAndSaveEvents n1 db0 b).1).Nodup := by
  have hfst1 : (transformAndSaveEvents n1 db0 b).1 = runDB n1 db0 b :=
    transform_fst n1 db0 b
  refine ⟨?_, ?_, ?_, ?_⟩
  · rw [transform_fst, hfst1]
    exact run_twice_aux n1 n2 db0 b []
  · rw [hfst1]
    show ((transformAndSaveEvents n2 (runDB n1 db0 b) b).2).inserted = 0
    simp only [transformAndSaveEvents]
    rw [inserted_stable_foldl n2 b (runDB n1 db0 b) Counts.zero
      fun j hj l' hok => okLink_present_run n1 l' b db0 j hj hok]
    rfl
  · intro k r h
    rw [hfst1]
    obtain ⟨r', hg, _, _, hnf, _⟩ := runDB_get? n1 b db0 k r h
    exact ⟨r', hg, hnf⟩
  · rw [hfst1]
    exact nodup_links_run n1 b db0 hnd

/-- C1 witness: a two-item batch ingested twice from an empty table. -/
theorem ingest_idempotent_witness :
    (links emptyDB).Nodup ∧
      ((transformAndSaveEvents 7 (transformAndSaveEvents 5 emptyDB
            [exampleItem, otherItem]).1 [exampleItem, otherItem]).1
          = (transformAndSaveEvents 5 emptyDB [exampleItem, otherItem]).1 ∧
        ((transformAndSaveEvents 7 (transformAndSaveEvents 5 emptyDB
            [exampleItem, otherItem]).1 [exampleItem, otherItem]).2).inserted = 0 ∧
        (∀ k r, emptyDB.rows.get? k = some r →
          ∃ r', ((transformAndSaveEvents 5 emptyDB [exampleItem, otherItem]).1).rows.get? k
              = some r' ∧ r'.notified = r.notified) ∧
        (links (transformAndSaveEvents 5 emptyDB [exampleItem, otherItem]).1).Nodup) :=
  ⟨by decide, ingest_idempotent 5 7 emptyDB [exampleItem, otherItem] (by decide)⟩

end BcnTechno
